import Mathlib

set_option maxHeartbeats 1000000

/-!
Verification of the grouped-pagination and aggregation subsystem of the
`restui/models/mappings.py` module: the two queryset classes
`MappingQuerySet` (normalized form, group key derived through the
mapping-history chain) and `MappingViewQuerySet` (denormalized form,
`grouping_id` inlined on the row), plus the vocabulary-lookup classmethods
of `Mapping` and `MappingView`.

Rows are modelled as Lean structures carrying the columns the subsystem
reads; SQL `ORDER BY` is modelled by a deterministic (stable) sort;
`GROUP BY`/`COUNT` by dedup/count over the projected key list; Python
exceptions (`DoesNotExist`, `TypeError` from sorting `None`) by
`Except`/`Option` results.
-/

namespace GiftsRest

/-- A row of the denormalised `mapping_view` table (model of `MappingView`),
restricted to the columns read by the queryset methods under study. -/
structure ViewRec where
  id : Nat
  mapping_id : Option Int
  grouping_id : Option Int
  alignment_difference : Option Int
  status : Option Int
  uniprot_tax_id : Option Int
  uniprot_mapping_status : Option String
  chromosome : Option String
  region_accession : Option String
deriving DecidableEq

/-- One entry of the ordered group-count sequence produced by
`grouped_counts` (a `values(...).annotate(total=Count(...))` row). -/
structure GroupCount where
  grouping_id : Option Int
  total : Nat
deriving DecidableEq

/-- `ORDER BY grouping_id DESC` key comparator; PostgreSQL places NULLs
first in descending order. -/
def descLEb : Option Int → Option Int → Bool
  | none, _ => true
  | some _, none => false
  | some a, some b => decide (b ≤ a)

def descLE (x y : Option Int) : Prop := descLEb x y = true

instance : DecidableRel descLE := fun _ _ => inferInstanceAs (Decidable (_ = true))

/-- `ORDER BY grouping_id ASC` key comparator; PostgreSQL places NULLs
last in ascending order. -/
def ascLEb : Option Int → Option Int → Bool
  | _, none => true
  | none, some _ => false
  | some a, some b => decide (a ≤ b)

def ascLE (x y : Option Int) : Prop := ascLEb x y = true

instance : DecidableRel ascLE := fun _ _ => inferInstanceAs (Decidable (_ = true))

/-- Python list slice `l[a : a + b]` for non-negative bounds. -/
def pySlice (l : List α) (a b : Nat) : List α := (l.drop a).take b

/-- Row offset computed by `grouped_slice` (both querysets, identical code):
`0 if offset == 0 else sum(int(row['total']) for row in counts[:offset])`. -/
def slice_offset (counts : List GroupCount) (offset : Nat) : Nat :=
  if offset = 0 then 0 else ((counts.take offset).map (·.total)).sum

/-- Row count computed by `grouped_slice` (both querysets, identical code):
`sum(int(row['total']) for row in counts[offset:offset+limit])`. -/
def slice_row_count (counts : List GroupCount) (offset limit : Nat) : Nat :=
  ((pySlice counts offset limit).map (·.total)).sum

/-- The `try: d[k].append(v) / except KeyError: d[k] = [v]` pattern on a
Python (insertion-ordered) dict: append to an existing key's list, or add a
new single-element entry at the end. -/
def dictAppend [DecidableEq K] : List (K × List V) → K → V → List (K × List V)
  | [], k, v => [(k, [v])]
  | (k', vs) :: rest, k, v =>
      if k' = k then (k', vs ++ [v]) :: rest else (k', vs) :: dictAppend rest k v

namespace MappingViewQuerySet

/-- `self.order_by('-grouping_id')`. -/
def order_by_desc (qs : List ViewRec) : List ViewRec :=
  List.insertionSort (fun a b => descLE a.grouping_id b.grouping_id) qs

/-- `MappingViewQuerySet.grouped_counts`: group the rowset by `grouping_id`
(the `Count(Case(When(grouping_id__isnull=True, then=1), default=1))`
annotation counts every row, null keys included), ordered by
`-grouping_id`. -/
def grouped_counts (qs : List ViewRec) : List GroupCount :=
  let ks := (order_by_desc qs).map (·.grouping_id)
  ks.dedup.map (fun k => ⟨k, ks.count k⟩)

/-- `MappingViewQuerySet.grouped_count`: `len(counts)`. -/
def grouped_count (qs : List ViewRec) : Nat := (grouped_counts qs).length

/-- `MappingViewQuerySet.grouped_slice`. -/
def grouped_slice (qs : List ViewRec) (offset limit : Nat) :
    List (Option Int × List ViewRec) :=
  let counts := grouped_counts qs
  let qs_off := slice_offset counts offset
  let qs_lim := slice_row_count counts offset limit
  let sub_qs := pySlice (order_by_desc qs) qs_off qs_lim
  sub_qs.foldl (fun res r => dictAppend res r.grouping_id r) []

end MappingViewQuerySet

/-- A `release_mapping_history` record (model of `ReleaseMappingHistory`);
Django model equality compares primary keys
(`release_mapping_history_id`). -/
structure RMHRec where
  release_mapping_history_id : Nat
  time_mapped : Nat
  uniprot_taxid : Option Int
deriving DecidableEq

/-- A `mapping_history` record (model of `MappingHistory`), with its
referenced `release_mapping_history` record inlined. -/
structure MHRec where
  grouping_id : Option Int
  release_mapping_history : RMHRec
deriving DecidableEq

/-- A `mapping` record (model of `Mapping`), with its reverse
`mapping_history` relation inlined, and the joined columns the facet
methods project (`status`, `transcript__gene__chromosome`, the
`(tax_id, species)` pairs reached through
`transcript__transcripthistory__ensembl_species_history`). -/
structure MappingRec where
  mapping_id : Nat
  mapping_history : List MHRec
  status : Int
  alignment_difference : Option Int
  chromosome : Option String
  species_pairs : List (Option Int × Option String)
deriving DecidableEq

/-- Django's `.latest(field)` (`ORDER BY field DESC LIMIT 1`): the first
element attaining the maximal key, `none` on an empty queryset (where
Django raises `DoesNotExist`). -/
def latestBy (f : α → Nat) : List α → Option α
  | [] => none
  | x :: xs =>
      match latestBy f xs with
      | none => some x
      | some y => if f y ≤ f x then some x else some y

/-- `ReleaseMappingHistory.objects.filter(uniprot_taxid=t).latest('time_mapped')`:
the species' current latest release snapshot, looked up in the global
`release_mapping_history` table `allRMH`. -/
def speciesLatestRMH (allRMH : List RMHRec) (t : Option Int) : Option RMHRec :=
  latestBy (·.time_mapped) (allRMH.filter (fun r => r.uniprot_taxid = t))

/-- `result.mapping_history.latest('release_mapping_history__time_mapped')`. -/
def latestHistory (m : MappingRec) : Option MHRec :=
  latestBy (·.release_mapping_history.time_mapped) m.mapping_history

namespace MappingQuerySet

/-- The rows of the SQL join `mapping LEFT OUTER JOIN mapping_history`
produced by traversing the reverse relation `mapping_history__grouping_id`:
each mapping appears once per history entry (with that entry's
`grouping_id` as join key), and once with a null key if it has none. -/
def joinRows (qs : List MappingRec) : List (MappingRec × Option Int) :=
  qs.flatMap (fun m =>
    match m.mapping_history with
    | [] => [(m, none)]
    | hs => hs.map (fun h => (m, h.grouping_id)))

/-- `self.order_by('mapping_history__grouping_id')`: the join rows ordered
by join key ascending (NULLS LAST). -/
def order_by_asc (qs : List MappingRec) : List (MappingRec × Option Int) :=
  List.insertionSort (fun a b => ascLE a.2 b.2) (joinRows qs)

/-- `MappingQuerySet.grouped_counts`:
`values('mapping_history__grouping_id').annotate(total=Count('mapping_history__grouping_id')).order_by('mapping_history__grouping_id')`.
`COUNT` over the nullable column itself skips NULL values, so the null-key
group (if present) gets total 0. -/
def grouped_counts (qs : List MappingRec) : List GroupCount :=
  let ks := (order_by_asc qs).map (·.2)
  ks.dedup.map (fun k =>
    ⟨k, match k with
        | none => 0
        | some g => ks.count (some g)⟩)

/-- `MappingQuerySet.grouped_count`: `len(counts)`. -/
def grouped_count (qs : List MappingRec) : Nat := (grouped_counts qs).length

/-- The set `grouped_results_added[gid]` of `mapping_id`s already recorded
under group key `gid`. -/
def addedSet (added : List (Option Int × List Nat)) (gid : Option Int) :
    List Nat :=
  (added.filter (·.1 = gid)).flatMap (·.2)

/-- The per-row body of the `grouped_slice` loop, threading the ordered
result dict and the `grouped_results_added` per-group sets of already-seen
`mapping_id`s. `Except.error` models an uncaught `DoesNotExist` from one
of the two `.latest(...)` calls. -/
def sliceLoop (allRMH : List RMHRec) :
    List MappingRec → List (Option Int × List MappingRec) →
    List (Option Int × List Nat) →
    Except Unit (List (Option Int × List MappingRec))
  | [], res, _ => .ok res
  | m :: rest, res, added =>
      match latestHistory m with
      | none => .error ()
      | some h =>
          let gid := h.grouping_id
          if (addedSet added gid).contains m.mapping_id then
            sliceLoop allRMH rest res added
          else
            let rmh := h.release_mapping_history
            match speciesLatestRMH allRMH rmh.uniprot_taxid with
            | none => .error ()
            | some srmh =>
                if rmh.release_mapping_history_id ≠ srmh.release_mapping_history_id then
                  sliceLoop allRMH rest res added
                else
                  sliceLoop allRMH rest (dictAppend res gid m)
                    (dictAppend added gid m.mapping_id)

/-- `MappingQuerySet.grouped_slice`: compute the row range from the
memoized counts, slice the join-ordered rowset, and fold the fetched rows
into an ordered dict of deduplicated, eligibility-filtered lists. -/
def grouped_slice (allRMH : List RMHRec) (qs : List MappingRec)
    (offset limit : Nat) : Except Unit (List (Option Int × List MappingRec)) :=
  let counts := grouped_counts qs
  let qs_off := slice_offset counts offset
  let qs_lim := slice_row_count counts offset limit
  let sub_qs := (pySlice (order_by_asc qs) qs_off qs_lim).map (·.1)
  sliceLoop allRMH sub_qs [] []

end MappingQuerySet

/-- Python's `sorted` on a list of nullable values: a list of length at
most one needs no comparison and is returned as is; otherwise any `None`
in the list participates in a comparison and raises `TypeError`
(modelled as `none`); a pure string list is sorted. -/
def pySortedOpt (l : List (Option String)) : Option (List (Option String)) :=
  if l.length ≤ 1 then some l
  else if l.any (·.isNone) then none
  else some (List.insertionSort
    (fun a b => (a.getD "") ≤ (b.getD "")) l)

/-- The `alignment_difference=0` filter condition (SQL `= 0`, false on
NULL). -/
def diffIdentical (x : Option Int) : Bool := decide (x = some 0)

/-- The `alignment_difference__gt=0, alignment_difference__lte=5` filter
condition (false on NULL). -/
def diffSmall : Option Int → Bool
  | none => false
  | some d => decide (0 < d) && decide (d ≤ 5)

/-- The `alignment_difference__gt=5` filter condition (false on NULL). -/
def diffLarge : Option Int → Bool
  | none => false
  | some d => decide (5 < d)

namespace MappingQuerySet

/-- `MappingQuerySet.statuses`: distinct `status` values. -/
def statuses (qs : List MappingRec) : List Int :=
  (qs.map (·.status)).dedup

/-- `MappingQuerySet.species`: distinct
`(ensembl_tax_id, species)` pairs reached through the
transcript-history join (a mapping with no such joined row contributes a
null pair through the LEFT OUTER JOIN). -/
def species (qs : List MappingRec) : List (Option Int × Option String) :=
  (qs.flatMap (fun m =>
    match m.species_pairs with
    | [] => [(none, none)]
    | ps => ps)).dedup

/-- `MappingQuerySet.divergences`: the three filtered counts
`alignment_difference == 0`, `0 < alignment_difference <= 5`,
`alignment_difference > 5` (SQL comparisons never match NULL). -/
def divergences (qs : List MappingRec) : List Nat :=
  [qs.countP (fun m => diffIdentical m.alignment_difference),
   qs.countP (fun m => diffSmall m.alignment_difference),
   qs.countP (fun m => diffLarge m.alignment_difference)]

/-- `MappingQuerySet.chromosomes`: append every distinct
`transcript__gene__chromosome` value (nulls included) and `sorted(...)`
the result; sorting a list that mixes `None` with strings raises. -/
def chromosomes (qs : List MappingRec) : Option (List (Option String)) :=
  pySortedOpt ((qs.map (·.chromosome)).dedup)

end MappingQuerySet

namespace MappingViewQuerySet

/-- `MappingViewQuerySet.statuses`: distinct `status` values. -/
def statuses (qs : List ViewRec) : List (Option Int) :=
  (qs.map (·.status)).dedup

/-- An `ensembl_species_history` record (model of `EnsemblSpeciesHistory`),
restricted to the columns read here. -/
structure ESHRec where
  ensembl_tax_id : Option Int
  species : String
  time_loaded : Nat
deriving DecidableEq

/-- `MappingViewQuerySet.species`: for each distinct `uniprot_tax_id`, look
up the latest-loaded `EnsemblSpeciesHistory` entry for that tax id
(`.latest('time_loaded')` raises -- modelled `none` -- when the tax id has
no entry). -/
def species (esh : List ESHRec) (qs : List ViewRec) :
    Option (List (Option Int × String)) :=
  ((qs.map (·.uniprot_tax_id)).dedup).mapM (fun t =>
    (latestBy (·.time_loaded) (esh.filter (fun e => e.ensembl_tax_id = t))).map
      (fun e => (t, e.species)))

/-- `MappingViewQuerySet.divergences`: identical three-bucket filtered
counts over `alignment_difference`. -/
def divergences (qs : List ViewRec) : List Nat :=
  [qs.countP (fun m => diffIdentical m.alignment_difference),
   qs.countP (fun m => diffSmall m.alignment_difference),
   qs.countP (fun m => diffLarge m.alignment_difference)]

/-- `MappingViewQuerySet.chromosomes`: keep the truthy (non-null,
non-empty) distinct `chromosome` values, then sort; always succeeds. -/
def chromosomes (qs : List ViewRec) : List String :=
  List.insertionSort (· ≤ ·)
    (((qs.map (·.chromosome)).dedup).filterMap (fun c =>
      match c with
      | none => none
      | some s => if s = "" then none else some s))

/-- `MappingViewQuerySet.types`: distinct `uniprot_mapping_status`
values. -/
def types (qs : List ViewRec) : List (Option String) :=
  (qs.map (·.uniprot_mapping_status)).dedup

/-- `region_accession__iregex=r"^CHR"`: case-insensitive prefix match. -/
def iregexCHR (s : String) : Bool := s.toUpper.startsWith "CHR"

/-- `MappingViewQuerySet.has_patches`: any row whose `region_accession`
matches `^CHR` case-insensitively. -/
def has_patches (qs : List ViewRec) : Bool :=
  0 < qs.countP (fun m =>
    match m.region_accession with
    | none => false
    | some s => iregexCHR s)

end MappingViewQuerySet

/-- A `cv_entry_type` / `cv_ue_status` vocabulary record. -/
structure CvRec where
  id : Nat
  description : String
deriving DecidableEq

/-- Sequential Python-dict build `entries[entry.id] = entry.description`:
a later assignment to an existing key overwrites in place, a new key is
appended. -/
def pyDictInsert (d : List (Nat × String)) (k : Nat) (v : String) :
    List (Nat × String) :=
  if d.any (·.1 = k) then d.map (fun p => if p.1 = k then (k, v) else p)
  else d ++ [(k, v)]

/-- Python dict lookup `d[k]` as an `Option`. -/
def pyDictGet (d : List (Nat × String)) (k : Nat) : Option String :=
  ((d.filter (·.1 = k)).head?).map (·.2)

/-- The id -> description map built by iterating the vocabulary table. -/
def buildVocab (tbl : List CvRec) : List (Nat × String) :=
  tbl.foldl (fun d e => pyDictInsert d e.id e.description) []

namespace Mapping

/-- `Mapping.entry_type(identity)`: fill the class-level `_entry_type`
cache from `CvEntryType.objects.all()` if it is empty, then index it --
`cls._entry_type[identity]` raises `KeyError` (modelled `Except.error`)
for an unknown identity. Returns the result and the cache after the
call. -/
def entry_type (cache : List (Nat × String)) (tbl : List CvRec)
    (identity : Nat) : Except Unit String × List (Nat × String) :=
  let c := if cache.isEmpty then buildVocab tbl else cache
  (match pyDictGet c identity with
   | some d => .ok d
   | none => .error (), c)

/-- `Mapping.status_type(identity)`: same pattern over the `_status_type`
cache filled from `CvUeStatus.objects.all()`. -/
def status_type (cache : List (Nat × String)) (tbl : List CvRec)
    (identity : Nat) : Except Unit String × List (Nat × String) :=
  let c := if cache.isEmpty then buildVocab tbl else cache
  (match pyDictGet c identity with
   | some d => .ok d
   | none => .error (), c)

end Mapping

namespace MappingView

/-- `MappingView.entry_description(identity)`: same cache fill, but the
`KeyError` is caught and `None` returned for an unknown identity. -/
def entry_description (cache : List (Nat × String)) (tbl : List CvRec)
    (identity : Nat) : Option String × List (Nat × String) :=
  let c := if cache.isEmpty then buildVocab tbl else cache
  (pyDictGet c identity, c)

/-- `MappingView.status_description(identity)`: same pattern over the
status vocabulary. -/
def status_description (cache : List (Nat × String)) (tbl : List CvRec)
    (identity : Nat) : Option String × List (Nat × String) :=
  let c := if cache.isEmpty then buildVocab tbl else cache
  (pyDictGet c identity, c)

end MappingView

/-- A `MappingQuerySet` instance: its rowset together with the instance
attribute `_counts` (`None` until `grouped_counts` first runs). -/
structure MappingQS where
  rows : List MappingRec
  _counts : Option (List GroupCount)
deriving DecidableEq

namespace MappingQS

/-- Stateful `grouped_counts`: compute and memoize on first call, return
the cached sequence afterwards. -/
def grouped_counts_call (s : MappingQS) : List GroupCount × MappingQS :=
  match s._counts with
  | some c => (c, s)
  | none =>
      let c := MappingQuerySet.grouped_counts s.rows
      (c, ⟨s.rows, some c⟩)

/-- Stateful `grouped_count`: `len(self.grouped_counts())`. -/
def grouped_count_call (s : MappingQS) : Nat × MappingQS :=
  let (c, s') := grouped_counts_call s
  (c.length, s')

/-- Stateful `grouped_slice`, drawing its counts from the memo. -/
def grouped_slice_call (allRMH : List RMHRec) (s : MappingQS)
    (offset limit : Nat) :
    Except Unit (List (Option Int × List MappingRec)) × MappingQS :=
  let (counts, s') := grouped_counts_call s
  let qs_off := slice_offset counts offset
  let qs_lim := slice_row_count counts offset limit
  let sub_qs := (pySlice (MappingQuerySet.order_by_asc s'.rows) qs_off qs_lim).map (·.1)
  (MappingQuerySet.sliceLoop allRMH sub_qs [] [], s')

end MappingQS

/-- A `MappingViewQuerySet` instance with its `_counts` memo. -/
structure MappingViewQS where
  rows : List ViewRec
  _counts : Option (List GroupCount)
deriving DecidableEq

namespace MappingViewQS

/-- Stateful `grouped_counts` with per-instance memoization. -/
def grouped_counts_call (s : MappingViewQS) : List GroupCount × MappingViewQS :=
  match s._counts with
  | some c => (c, s)
  | none =>
      let c := MappingViewQuerySet.grouped_counts s.rows
      (c, ⟨s.rows, some c⟩)

/-- Stateful `grouped_count`. -/
def grouped_count_call (s : MappingViewQS) : Nat × MappingViewQS :=
  let (c, s') := grouped_counts_call s
  (c.length, s')

/-- Stateful `grouped_slice`, drawing its counts from the memo. -/
def grouped_slice_call (s : MappingViewQS) (offset limit : Nat) :
    List (Option Int × List ViewRec) × MappingViewQS :=
  let (counts, s') := grouped_counts_call s
  let qs_off := slice_offset counts offset
  let qs_lim := slice_row_count counts offset limit
  let sub_qs := pySlice (MappingViewQuerySet.order_by_desc s'.rows) qs_off qs_lim
  (sub_qs.foldl (fun res r => dictAppend res r.grouping_id r) [], s')

end MappingViewQS

/-! ### Derived notions and concrete rowsets used in the statements -/

/-- Total number of rows appearing in the lists of an ordered mapping. -/
def sumLens (res : List (K × List V)) : Nat :=
  (res.map (fun p => p.2.length)).sum

/-- A normalized-form row is eligible when its most-recently-mapped history
entry references the species' current latest release snapshot (primary-key
comparison, as Django's `!=` on model instances). -/
def eligible (allRMH : List RMHRec) (m : MappingRec) : Bool :=
  match latestHistory m with
  | none => false
  | some h =>
      match speciesLatestRMH allRMH h.release_mapping_history.uniprot_taxid with
      | none => false
      | some srmh =>
          decide (h.release_mapping_history.release_mapping_history_id =
            srmh.release_mapping_history_id)

/-- A denormalized row with only `id` and `grouping_id` populated. -/
def vrow (i : Nat) (g : Option Int) : ViewRec :=
  ⟨i, some (Int.ofNat i), g, none, none, none, none, none, none⟩

/-- The spec's example rowset: groups with totals `[3, 2, 5]` in the
descending key order used by the denormalized queryset. -/
def exView10 : List ViewRec :=
  [vrow 1 (some 3), vrow 2 (some 3), vrow 3 (some 3),
   vrow 4 (some 2), vrow 5 (some 2),
   vrow 6 (some 1), vrow 7 (some 1), vrow 8 (some 1), vrow 9 (some 1),
   vrow 10 (some 1)]

/-- A release snapshot record used by the concrete normalized rowsets. -/
def exRMH : RMHRec := ⟨1, 10, some 9606⟩

/-- A superseded (older `time_mapped`, same species) snapshot. -/
def exRMHold : RMHRec := ⟨2, 5, some 9606⟩

/-- A normalized row whose two history entries share the same grouping id
and snapshot: the history join duplicates it in the fetched slice. -/
def exMapDup : MappingRec := ⟨1, [⟨some 1, exRMH⟩, ⟨some 1, exRMH⟩], 1, none, none, []⟩

/-- A normalized row whose single history entry has a null grouping id. -/
def exMapNullGid : MappingRec := ⟨1, [⟨none, exRMH⟩], 1, none, none, []⟩

/-- A normalized row pointing at the current snapshot of species 9606. -/
def exMapCurrent : MappingRec := ⟨1, [⟨some 1, exRMH⟩], 1, none, none, []⟩

/-- A normalized row pointing at the superseded snapshot of species 9606,
under the same group key as `exMapCurrent`. -/
def exMapStale : MappingRec := ⟨2, [⟨some 1, exRMHold⟩], 1, none, none, []⟩

/-- Two denormalized rows sharing both group key and `mapping_id` but with
distinct view primary keys. -/
def exViewDupA : ViewRec := ⟨1, some 7, some 1, none, none, none, none, none, none⟩

def exViewDupB : ViewRec := ⟨2, some 7, some 1, none, none, none, none, none, none⟩

/-- Rows that land in one of the three divergence buckets: a non-null,
non-negative alignment difference. -/
def diffCounted : Option Int → Bool
  | none => false
  | some d => decide (0 ≤ d)

/-- A denormalized row with only `id` and `alignment_difference`
populated. -/
def dvrow (i : Nat) (d : Option Int) : ViewRec :=
  ⟨i, none, none, d, none, none, none, none, none⟩

/-- The spec's divergence example: differences `[0, 0, 3, 7, None]`. -/
def exDivRows : List ViewRec :=
  [dvrow 1 (some 0), dvrow 2 (some 0), dvrow 3 (some 3), dvrow 4 (some 7),
   dvrow 5 none]

/-- A denormalized rowset with a null-keyed group (two rows) ahead of an
ordinary group. -/
def exViewNulls : List ViewRec :=
  [vrow 1 none, vrow 2 none, vrow 3 (some 5)]

/-- A one-entry vocabulary table. -/
def exVocab : List CvRec := [⟨1, "sample description"⟩]

/-- A denormalized row carrying a chromosome label. -/
def exViewChr : ViewRec := ⟨1, none, none, none, none, none, none, some "1", none⟩

/-! ### Helper lemmas -/

open MappingQuerySet (addedSet sliceLoop joinRows)

lemma sum_take_le (l : List Nat) (n : Nat) : (l.take n).sum ≤ l.sum := by
  conv_rhs => rw [← List.take_append_drop n l]
  rw [List.sum_append]
  exact Nat.le_add_right _ _

lemma sum_take_add (l : List Nat) (m n : Nat) :
    (l.take m).sum + ((l.drop m).take n).sum = (l.take (m + n)).sum := by
  rw [List.take_add, List.sum_append]

lemma sum_map_take_eq_range (l : List GroupCount) (n : Nat) :
    ((l.take n).map (·.total)).sum =
      ∑ i ∈ Finset.range n, (l.getD i ⟨none, 0⟩).total := by
  induction l generalizing n with
  | nil => simp
  | cons c l ih =>
      cases n with
      | zero => simp
      | succ n =>
          rw [List.take_succ_cons, List.map_cons, List.sum_cons, ih,
            Finset.sum_range_succ']
          simp [Nat.add_comm]

lemma slice_bound (counts : List GroupCount) (off lim : Nat) :
    slice_offset counts off + slice_row_count counts off lim ≤
      (counts.map (·.total)).sum := by
  have hoff : ∀ n, ((counts.take n).map (·.total)).sum =
      ((counts.map (·.total)).take n).sum := by
    intro n; rw [List.map_take]
  have hlim : ((pySlice counts off lim).map (·.total)).sum =
      (((counts.map (·.total)).drop off).take lim).sum := by
    rw [pySlice, List.map_take, List.map_drop]
  unfold slice_offset slice_row_count
  by_cases h : off = 0
  · subst h
    simp only [if_true, Nat.zero_add, hlim, List.drop_zero, eq_self_iff_true]
    exact sum_take_le _ _
  · simp only [h, if_false, hoff, hlim]
    rw [sum_take_add]
    exact sum_take_le _ _

lemma sum_map_count_dedup_opt (l : List (Option Int)) :
    (l.dedup.map fun k => l.count k).sum = l.length := by
  have h := List.sum_map_count_dedup_eq_length l
  simp only [List.count, beq_eq_decide] at h ⊢
  exact h

lemma view_counts_sum (qs : List ViewRec) :
    ((MappingViewQuerySet.grouped_counts qs).map (·.total)).sum = qs.length := by
  simp only [MappingViewQuerySet.grouped_counts, List.map_map]
  have h1 : ((fun c : GroupCount => c.total) ∘
      (fun k => (⟨k, ((MappingViewQuerySet.order_by_desc qs).map (·.grouping_id)).count k⟩ : GroupCount))) =
      fun k => ((MappingViewQuerySet.order_by_desc qs).map (·.grouping_id)).count k := rfl
  rw [h1, sum_map_count_dedup_opt, List.length_map]
  exact (List.perm_insertionSort _ qs).length_eq

lemma sumLens_nil [DecidableEq K] : sumLens ([] : List (K × List V)) = 0 := rfl

lemma sumLens_dictAppend [DecidableEq K] (res : List (K × List V)) (k : K) (v : V) :
    sumLens (dictAppend res k v) = sumLens res + 1 := by
  induction res with
  | nil => simp [dictAppend, sumLens]
  | cons p rest ih =>
      obtain ⟨k', vs⟩ := p
      by_cases h : k' = k
      · simp [dictAppend, h, sumLens]
        omega
      · simp only [dictAppend, h, if_false, sumLens, List.map_cons, List.sum_cons] at *
        omega

lemma foldl_dictAppend_length [DecidableEq K] (key : V → K) (l : List V)
    (res : List (K × List V)) :
    sumLens (l.foldl (fun r v => dictAppend r (key v) v) res) =
      sumLens res + l.length := by
  induction l generalizing res with
  | nil => simp
  | cons v l ih =>
      rw [List.foldl_cons, ih, sumLens_dictAppend, List.length_cons]
      omega

lemma view_slice_sumLens (qs : List ViewRec) (off lim : Nat) :
    sumLens (MappingViewQuerySet.grouped_slice qs off lim) =
      slice_row_count (MappingViewQuerySet.grouped_counts qs) off lim := by
  have hle : slice_offset (MappingViewQuerySet.grouped_counts qs) off +
      slice_row_count (MappingViewQuerySet.grouped_counts qs) off lim ≤
      (MappingViewQuerySet.order_by_desc qs).length := by
    have h := slice_bound (MappingViewQuerySet.grouped_counts qs) off lim
    rw [view_counts_sum] at h
    rw [MappingViewQuerySet.order_by_desc, (List.perm_insertionSort _ qs).length_eq]
    exact h
  simp only [MappingViewQuerySet.grouped_slice]
  rw [foldl_dictAppend_length (fun r : ViewRec => r.grouping_id)]
  simp only [sumLens_nil, Nat.zero_add]
  simp only [pySlice, List.length_take, List.length_drop]
  omega

lemma mem_pySlice {l : List α} {a b : Nat} {x : α} (h : x ∈ pySlice l a b) :
    x ∈ l :=
  List.mem_of_mem_drop (List.mem_of_mem_take h)

lemma latestBy_mem (f : α → Nat) :
    ∀ {l : List α} {x : α}, latestBy f l = some x → x ∈ l := by
  intro l
  induction l with
  | nil => intro x h; simp [latestBy] at h
  | cons a l ih =>
      intro x h
      simp only [latestBy] at h
      cases hl : latestBy f l with
      | none =>
          rw [hl] at h
          cases h
          exact List.mem_cons_self _ _
      | some y =>
          rw [hl] at h
          have h' : (if f y ≤ f a then some a else some y) = some x := h
          by_cases hy : f y ≤ f a
          · rw [if_pos hy] at h'
            cases h'
            exact List.mem_cons_self _ _
          · rw [if_neg hy] at h'
            cases h'
            exact List.mem_cons_of_mem _ (ih hl)

lemma latestBy_isSome (f : α → Nat) (l : List α) (hne : l ≠ []) :
    ∃ x, latestBy f l = some x := by
  cases l with
  | nil => exact absurd rfl hne
  | cons a l =>
      cases h : latestBy f l with
      | none => exact ⟨a, by simp [latestBy, h]⟩
      | some y =>
          by_cases hy : f y ≤ f a
          · exact ⟨a, by simp [latestBy, h, hy]⟩
          · exact ⟨y, by simp [latestBy, h, hy]⟩

lemma mem_joinRows {qs : List MappingRec} {p : MappingRec × Option Int}
    (hp : p ∈ MappingQuerySet.joinRows qs) : p.1 ∈ qs := by
  simp only [MappingQuerySet.joinRows, List.mem_flatMap] at hp
  obtain ⟨m, hm, hpm⟩ := hp
  cases h : m.mapping_history with
  | nil =>
      rw [h] at hpm
      simp only [List.mem_singleton] at hpm
      rw [hpm]
      exact hm
  | cons a hs =>
      rw [h] at hpm
      simp only [List.mem_map] at hpm
      obtain ⟨hh, _, hph⟩ := hpm
      rw [← hph]
      exact hm

lemma dictAppend_mem [DecidableEq K] :
    ∀ {res : List (K × List V)} {k : K} {v : V} {p : K × List V},
      p ∈ dictAppend res k v →
      p ∈ res ∨ (p.1 = k ∧ ∃ vs, p.2 = vs ++ [v] ∧ ((p.1, vs) ∈ res ∨ vs = [])) := by
  intro res
  induction res with
  | nil =>
      intro k v p hp
      simp only [dictAppend, List.mem_singleton] at hp
      subst hp
      exact Or.inr ⟨rfl, [], rfl, Or.inr rfl⟩
  | cons q rest ih =>
      intro k v p hp
      obtain ⟨k', vs'⟩ := q
      by_cases h : k' = k
      · simp only [dictAppend, if_pos h] at hp
        rcases List.mem_cons.mp hp with hq | hq
        · subst hq
          exact Or.inr ⟨h, vs', rfl, Or.inl (List.mem_cons_self _ _)⟩
        · exact Or.inl (List.mem_cons_of_mem _ hq)
      · simp only [dictAppend, if_neg h] at hp
        rcases List.mem_cons.mp hp with hq | hq
        · subst hq
          exact Or.inl (List.mem_cons_self _ _)
        · rcases ih hq with h1 | ⟨h2, vs, h3, h4⟩
          · exact Or.inl (List.mem_cons_of_mem _ h1)
          · refine Or.inr ⟨h2, vs, h3, ?_⟩
            rcases h4 with h4 | h4
            · exact Or.inl (List.mem_cons_of_mem _ h4)
            · exact Or.inr h4

lemma addedSet_cons (q : Option Int × List Nat)
    (rest : List (Option Int × List Nat)) (k : Option Int) :
    addedSet (q :: rest) k = (if q.1 = k then q.2 else []) ++ addedSet rest k := by
  simp only [addedSet, List.filter_cons]
  by_cases h : q.1 = k
  · simp [h]
  · simp [h]

lemma addedSet_dictAppend_self (added : List (Option Int × List Nat))
    (k : Option Int) (v : Nat) :
    v ∈ addedSet (dictAppend added k v) k := by
  induction added with
  | nil => simp [dictAppend, addedSet]
  | cons q rest ih =>
      obtain ⟨k', vs⟩ := q
      by_cases h : k' = k
      · simp only [dictAppend, if_pos h, addedSet_cons]
        simp [h]
      · simp only [dictAppend, if_neg h, addedSet_cons]
        simp only [List.mem_append]
        exact Or.inr ih

lemma addedSet_mono (added : List (Option Int × List Nat))
    (k k' : Option Int) (v x : Nat)
    (hx : x ∈ addedSet added k') : x ∈ addedSet (dictAppend added k v) k' := by
  induction added with
  | nil => simp [addedSet] at hx
  | cons q rest ih =>
      obtain ⟨k₀, vs⟩ := q
      by_cases h : k₀ = k
      · simp only [dictAppend, if_pos h, addedSet_cons] at hx ⊢
        simp only [List.mem_append] at hx ⊢
        by_cases h2 : k₀ = k'
        · simp only [h2, if_pos rfl] at hx ⊢
          rcases hx with h3 | h3
          · exact Or.inl (List.mem_append_left _ h3)
          · exact Or.inr h3
        · simp only [h2, if_neg h2, List.nil_append] at hx ⊢
          exact hx
      · simp only [dictAppend, if_neg h, addedSet_cons] at hx ⊢
        simp only [List.mem_append] at hx ⊢
        rcases hx with h3 | h3
        · exact Or.inl h3
        · exact Or.inr (ih h3)

lemma sliceLoop_sumLens (allRMH : List RMHRec) :
    ∀ (l : List MappingRec) (res : List (Option Int × List MappingRec))
      (added : List (Option Int × List Nat)) out,
      sliceLoop allRMH l res added = .ok out →
      sumLens out ≤ sumLens res + l.length := by
  intro l
  induction l with
  | nil =>
      intro res added out h
      simp only [sliceLoop] at h
      cases h
      simp
  | cons m rest ih =>
      intro res added out h
      simp only [sliceLoop] at h
      split at h
      · simp at h
      · split at h
        · have := ih res added out h
          simp only [List.length_cons]
          omega
        · split at h
          · simp at h
          · split at h
            · have := ih res added out h
              simp only [List.length_cons]
              omega
            · have := ih _ _ _ h
              rw [sumLens_dictAppend] at this
              simp only [List.length_cons]
              omega

lemma nat_contains_of_mem {l : List Nat} {a : Nat} (h : a ∈ l) :
    l.contains a = true := by
  simpa using h

lemma sliceLoop_eligible (allRMH : List RMHRec) :
    ∀ (l : List MappingRec) (res : List (Option Int × List MappingRec))
      (added : List (Option Int × List Nat)) out,
      sliceLoop allRMH l res added = .ok out →
      (∀ p ∈ res, ∀ m ∈ p.2, eligible allRMH m = true) →
      ∀ p ∈ out, ∀ m ∈ p.2, eligible allRMH m = true := by
  intro l
  induction l with
  | nil =>
      intro res added out h hres
      simp only [sliceLoop] at h
      cases h
      exact hres
  | cons m rest ih =>
      intro res added out h hres
      simp only [sliceLoop] at h
      split at h
      · simp at h
      · rename_i hh heq
        split at h
        · exact ih res added out h hres
        · split at h
          · simp at h
          · rename_i srmh hseq
            split at h
            · exact ih res added out h hres
            · rename_i hid
              refine ih _ _ _ h ?_
              intro p hp m' hm'
              rcases dictAppend_mem hp with hold | ⟨hk, vs, hvs, hvsmem⟩
              · exact hres p hold m' hm'
              · rw [hvs] at hm'
                rcases List.mem_append.mp hm' with hin | hin
                · rcases hvsmem with hmem | hnil
                  · exact hres _ hmem m' hin
                  · rw [hnil] at hin
                    simp at hin
                · simp only [List.mem_singleton] at hin
                  subst hin
                  simp only [eligible, heq, hseq, decide_eq_true_eq]
                  exact not_not.mp hid

lemma sliceLoop_nodup (allRMH : List RMHRec) :
    ∀ (l : List MappingRec) (res : List (Option Int × List MappingRec))
      (added : List (Option Int × List Nat)) out,
      sliceLoop allRMH l res added = .ok out →
      (∀ p ∈ res, (p.2.map (·.mapping_id)).Nodup) →
      (∀ p ∈ res, ∀ m ∈ p.2, m.mapping_id ∈ addedSet added p.1) →
      ∀ p ∈ out, (p.2.map (·.mapping_id)).Nodup := by
  intro l
  induction l with
  | nil =>
      intro res added out h h1 _
      simp only [sliceLoop] at h
      cases h
      exact h1
  | cons m rest ih =>
      intro res added out h h1 h2
      simp only [sliceLoop] at h
      split at h
      · simp at h
      · rename_i hh heq
        split at h
        · exact ih res added out h h1 h2
        · rename_i hc
          split at h
          · simp at h
          · rename_i srmh hseq
            split at h
            · exact ih res added out h h1 h2
            · refine ih _ _ _ h ?_ ?_
              · intro p hp
                rcases dictAppend_mem hp with hold | ⟨hk, vs, hvs, hvsmem⟩
                · exact h1 p hold
                · rw [hvs, List.map_append, List.nodup_append]
                  have hvsnd : (vs.map (·.mapping_id)).Nodup := by
                    rcases hvsmem with hmem | hnil
                    · exact h1 _ hmem
                    · rw [hnil]
                      exact List.nodup_nil
                  refine ⟨hvsnd, by simp, ?_⟩
                  intro x hx hx2
                  simp only [List.map_cons, List.map_nil, List.mem_singleton] at hx2
                  subst hx2
                  simp only [List.mem_map] at hx
                  obtain ⟨m', hm', hmid⟩ := hx
                  rcases hvsmem with hmem | hnil
                  · have hadd : m'.mapping_id ∈ addedSet added p.1 := h2 _ hmem m' hm'
                    rw [hmid, hk] at hadd
                    exact hc (nat_contains_of_mem hadd)
                  · rw [hnil] at hm'
                    simp at hm'
              · intro p hp m' hm'
                rcases dictAppend_mem hp with hold | ⟨hk, vs, hvs, hvsmem⟩
                · exact addedSet_mono _ _ _ _ _ (h2 p hold m' hm')
                · rw [hvs] at hm'
                  rcases List.mem_append.mp hm' with hin | hin
                  · rcases hvsmem with hmem | hnil
                    · exact addedSet_mono _ _ _ _ _ (h2 _ hmem m' hin)
                    · rw [hnil] at hin
                      simp at hin
                  · simp only [List.mem_singleton] at hin
                    subst hin
                    rw [hk]
                    exact addedSet_dictAppend_self _ _ _

lemma sliceLoop_ok (allRMH : List RMHRec) :
    ∀ (l : List MappingRec) (res : List (Option Int × List MappingRec))
      (added : List (Option Int × List Nat)),
      (∀ m ∈ l, m.mapping_history ≠ []) →
      (∀ m ∈ l, ∀ hh ∈ m.mapping_history, hh.release_mapping_history ∈ allRMH) →
      ∃ out, sliceLoop allRMH l res added = .ok out := by
  intro l
  induction l with
  | nil =>
      intro res added _ _
      exact ⟨res, rfl⟩
  | cons m rest ih =>
      intro res added hne hmem
      obtain ⟨hh, hlh⟩ :=
        latestBy_isSome (·.release_mapping_history.time_mapped) m.mapping_history
          (hne m (List.mem_cons_self _ _))
      have hlh' : latestHistory m = some hh := hlh
      have hhmem : hh ∈ m.mapping_history := latestBy_mem _ hlh
      have hrmh : hh.release_mapping_history ∈ allRMH :=
        hmem m (List.mem_cons_self _ _) hh hhmem
      have hfil : hh.release_mapping_history ∈
          allRMH.filter (fun r =>
            r.uniprot_taxid = hh.release_mapping_history.uniprot_taxid) :=
        List.mem_filter.mpr ⟨hrmh, by simp⟩
      obtain ⟨srmh, hs⟩ :=
        latestBy_isSome (·.time_mapped) _ (List.ne_nil_of_mem hfil)
      have hs' : speciesLatestRMH allRMH hh.release_mapping_history.uniprot_taxid =
          some srmh := hs
      have hne' : ∀ m' ∈ rest, m'.mapping_history ≠ [] :=
        fun m' hm' => hne m' (List.mem_cons_of_mem _ hm')
      have hmem' : ∀ m' ∈ rest, ∀ hh' ∈ m'.mapping_history,
          hh'.release_mapping_history ∈ allRMH :=
        fun m' hm' => hmem m' (List.mem_cons_of_mem _ hm')
      simp only [sliceLoop, hlh', hs']
      by_cases hc : (addedSet added hh.grouping_id).contains m.mapping_id
      · rw [if_pos hc]
        exact ih res added hne' hmem'
      · rw [if_neg hc]
        by_cases hid : hh.release_mapping_history.release_mapping_history_id ≠
            srmh.release_mapping_history_id
        · rw [if_pos hid]
          exact ih res added hne' hmem'
        · rw [if_neg hid]
          exact ih _ _ hne' hmem'

lemma mem_sub_qs {qs : List MappingRec} {a b : Nat} {m : MappingRec}
    (h : m ∈ (pySlice (MappingQuerySet.order_by_asc qs) a b).map (·.1)) :
    m ∈ qs := by
  simp only [List.mem_map] at h
  obtain ⟨p, hp, hpm⟩ := h
  have h1 : p ∈ MappingQuerySet.order_by_asc qs := mem_pySlice hp
  have h2 : p ∈ MappingQuerySet.joinRows qs :=
    (List.perm_insertionSort _ _).mem_iff.mp h1
  rw [← hpm]
  exact mem_joinRows h2

lemma count_opt_eq_countP (l : List (Option Int)) (a : Option Int) :
    l.count a = l.countP (fun x => decide (x = a)) := by
  induction l with
  | nil => rfl
  | cons x xs ih =>
      rw [List.count_cons, List.countP_cons, ih]
      by_cases h : x = a
      · simp [h]
      · simp [h]

lemma getD_drop_total (l : List GroupCount) (m n : Nat) :
    (l.drop m).getD n ⟨none, 0⟩ = l.getD (m + n) ⟨none, 0⟩ := by
  simp [List.getD_eq_getElem?_getD, List.getElem?_drop]

lemma sum_map_slice_eq_ico (l : List GroupCount) (off lim : Nat) :
    ((pySlice l off lim).map (·.total)).sum =
      ∑ i ∈ Finset.Ico off (off + lim), (l.getD i ⟨none, 0⟩).total := by
  rw [pySlice, sum_map_take_eq_range, Finset.sum_Ico_eq_sum_range]
  simp only [Nat.add_sub_cancel_left]
  refine Finset.sum_congr rfl ?_
  intro j _
  rw [getD_drop_total]

lemma view_counts_null_mem (qs : List ViewRec)
    (h : 0 < qs.countP (fun r => decide (r.grouping_id = none))) :
    (⟨none, qs.countP (fun r => decide (r.grouping_id = none))⟩ : GroupCount) ∈
      MappingViewQuerySet.grouped_counts qs := by
  have hperm : List.Perm (MappingViewQuerySet.order_by_desc qs) qs :=
    List.perm_insertionSort _ _
  have hcnt : ((MappingViewQuerySet.order_by_desc qs).map (·.grouping_id)).count none =
      qs.countP (fun r => decide (r.grouping_id = none)) := by
    rw [count_opt_eq_countP, List.countP_map]
    exact hperm.countP_eq _
  have hmem : (none : Option Int) ∈
      (MappingViewQuerySet.order_by_desc qs).map (·.grouping_id) := by
    rw [← List.count_pos_iff, hcnt]
    exact h
  have hdd : (none : Option Int) ∈
      ((MappingViewQuerySet.order_by_desc qs).map (·.grouping_id)).dedup :=
    List.mem_dedup.mpr hmem
  simp only [MappingViewQuerySet.grouped_counts]
  rw [← hcnt]
  exact List.mem_map.mpr ⟨none, hdd, rfl⟩

lemma norm_counts_null_total (qs : List MappingRec) (e : GroupCount)
    (he : e ∈ MappingQuerySet.grouped_counts qs) (hn : e.grouping_id = none) :
    e.total = 0 := by
  simp only [MappingQuerySet.grouped_counts, List.mem_map] at he
  obtain ⟨k, _, hke⟩ := he
  cases k with
  | none => rw [← hke]
  | some g =>
      rw [← hke] at hn
      simp at hn

lemma slice_row_count_of_le (counts : List GroupCount) (off lim : Nat)
    (h : counts.length ≤ off) : slice_row_count counts off lim = 0 := by
  simp [slice_row_count, pySlice, List.drop_eq_nil_of_le h]

lemma slice_row_count_zero (counts : List GroupCount) (off : Nat) :
    slice_row_count counts off 0 = 0 := by
  simp [slice_row_count, pySlice]

lemma view_slice_of_row_count_zero (qs : List ViewRec) (off lim : Nat)
    (h : slice_row_count (MappingViewQuerySet.grouped_counts qs) off lim = 0) :
    MappingViewQuerySet.grouped_slice qs off lim = [] := by
  simp only [MappingViewQuerySet.grouped_slice, h, pySlice, List.take_zero,
    List.foldl_nil]

lemma norm_slice_of_row_count_zero (allRMH : List RMHRec) (qs : List MappingRec)
    (off lim : Nat)
    (h : slice_row_count (MappingQuerySet.grouped_counts qs) off lim = 0) :
    MappingQuerySet.grouped_slice allRMH qs off lim = .ok [] := by
  simp only [MappingQuerySet.grouped_slice, h, pySlice, List.take_zero,
    List.map_nil]
  rfl

lemma diff_bucket_cases (x : Option Int) :
    (if diffIdentical x then (1 : Nat) else 0) +
      (if diffSmall x then 1 else 0) + (if diffLarge x then 1 else 0) =
      if diffCounted x then 1 else 0 := by
  rcases x with _ | d
  · rfl
  · simp only [diffIdentical, diffSmall, diffLarge, diffCounted,
      Option.some.injEq, decide_eq_true_eq, Bool.and_eq_true]
    split_ifs <;> omega

lemma divergence_partition (l : List (Option Int)) :
    l.countP diffIdentical + l.countP diffSmall + l.countP diffLarge =
      l.countP diffCounted := by
  induction l with
  | nil => rfl
  | cons x xs ih =>
      simp only [List.countP_cons]
      have h := diff_bucket_cases x
      rcases x with _ | d
      · simpa [diffIdentical, diffSmall, diffLarge, diffCounted] using ih
      · simp only [diffIdentical, diffSmall, diffLarge, diffCounted,
          Option.some.injEq, decide_eq_true_eq, Bool.and_eq_true] at h ⊢
        omega

lemma divergences_sum_view (qs : List ViewRec) :
    (MappingViewQuerySet.divergences qs).sum =
      qs.countP (fun m => diffCounted m.alignment_difference) := by
  have h := divergence_partition (qs.map (·.alignment_difference))
  simp only [List.countP_map] at h
  have h' : qs.countP (fun m => diffIdentical m.alignment_difference) +
      qs.countP (fun m => diffSmall m.alignment_difference) +
      qs.countP (fun m => diffLarge m.alignment_difference) =
      qs.countP (fun m => diffCounted m.alignment_difference) := h
  simp only [MappingViewQuerySet.divergences, List.sum_cons, List.sum_nil]
  omega

lemma divergences_sum_norm (qs : List MappingRec) :
    (MappingQuerySet.divergences qs).sum =
      qs.countP (fun m => diffCounted m.alignment_difference) := by
  have h := divergence_partition (qs.map (·.alignment_difference))
  simp only [List.countP_map] at h
  have h' : qs.countP (fun m => diffIdentical m.alignment_difference) +
      qs.countP (fun m => diffSmall m.alignment_difference) +
      qs.countP (fun m => diffLarge m.alignment_difference) =
      qs.countP (fun m => diffCounted m.alignment_difference) := h
  simp only [MappingQuerySet.divergences, List.sum_cons, List.sum_nil]
  omega

lemma any_isNone_iff (l : List (Option String)) :
    l.any (·.isNone) = true ↔ (none : Option String) ∈ l := by
  constructor
  · intro h
    obtain ⟨x, hx, he⟩ := List.any_eq_true.mp h
    rw [Option.isNone_iff_eq_none] at he
    rw [← he]
    exact hx
  · intro h
    exact List.any_eq_true.mpr ⟨none, h, rfl⟩

lemma norm_chromosomes_isSome_iff (qs : List MappingRec) :
    (MappingQuerySet.chromosomes qs).isSome = true ↔
      ((qs.map (·.chromosome)).dedup.length ≤ 1 ∨
        (none : Option String) ∉ (qs.map (·.chromosome)).dedup) := by
  simp only [MappingQuerySet.chromosomes, pySortedOpt]
  by_cases h1 : (qs.map (·.chromosome)).dedup.length ≤ 1
  · rw [if_pos h1]
    simp [h1]
  · rw [if_neg h1]
    by_cases h2 : (qs.map (·.chromosome)).dedup.any (·.isNone) = true
    · have hmem : (none : Option String) ∈ (qs.map (·.chromosome)).dedup :=
        (any_isNone_iff _).mp h2
      rw [if_pos h2]
      constructor
      · intro h
        exact absurd h (by simp)
      · intro h
        rcases h with h | h
        · exact absurd h h1
        · exact absurd hmem h
    · have hmem : (none : Option String) ∉ (qs.map (·.chromosome)).dedup :=
        fun hc => h2 ((any_isNone_iff _).mpr hc)
      rw [if_neg h2]
      exact ⟨fun _ => Or.inr hmem, fun _ => rfl⟩

lemma norm_slice_sumLens_le (allRMH : List RMHRec) (qs : List MappingRec)
    (off lim : Nat) (out : List (Option Int × List MappingRec))
    (h : MappingQuerySet.grouped_slice allRMH qs off lim = .ok out) :
    sumLens out ≤ slice_row_count (MappingQuerySet.grouped_counts qs) off lim := by
  simp only [MappingQuerySet.grouped_slice] at h
  have h1 := sliceLoop_sumLens allRMH _ _ _ _ h
  rw [sumLens_nil] at h1
  have h2 : ((pySlice (MappingQuerySet.order_by_asc qs)
      (slice_offset (MappingQuerySet.grouped_counts qs) off)
      (slice_row_count (MappingQuerySet.grouped_counts qs) off lim)).map (·.1)).length ≤
      slice_row_count (MappingQuerySet.grouped_counts qs) off lim := by
    rw [List.length_map, pySlice]
    exact List.length_take_le _ _
  omega

lemma countP_ext (l : List α) (p q : α → Bool) (h : ∀ a ∈ l, p a = q a) :
    l.countP p = l.countP q := by
  induction l with
  | nil => rfl
  | cons x xs ih =>
      rw [List.countP_cons, List.countP_cons,
        h x (List.mem_cons_self _ _), ih (fun a ha => h a (List.mem_cons_of_mem _ ha))]

lemma view_chromosomes_sorted (qs : List ViewRec) :
    List.Sorted (· ≤ ·) (MappingViewQuerySet.chromosomes qs) :=
  List.sorted_insertionSort _ _

lemma view_chromosomes_ne_empty (qs : List ViewRec) :
    ∀ s ∈ MappingViewQuerySet.chromosomes qs, s ≠ "" := by
  intro s hs
  have hs' : s ∈ ((qs.map (·.chromosome)).dedup).filterMap
      (fun c => match c with
        | none => none
        | some t => if t = "" then none else some t) :=
    (List.perm_insertionSort _ _).mem_iff.mp hs
  rw [List.mem_filterMap] at hs'
  obtain ⟨c, _, hcs⟩ := hs'
  cases c with
  | none => simp at hcs
  | some t =>
      have hcs' : (if t = "" then none else some t) = some s := hcs
      by_cases ht : t = ""
      · rw [if_pos ht] at hcs'
        cases hcs'
      · rw [if_neg ht] at hcs'
        cases hcs'
        exact ht

/-! ### Claim theorems -/

/-- C1: `grouped_slice` computes its row range from the memoized group
counts: the row offset is 0 when `group_offset = 0` and otherwise the sum
of the `total` fields of the first `group_offset` count entries, and the
row count is the sum of the `total` fields of the count entries at indices
`[group_offset, group_offset + group_limit)`; on the example rowset whose
groups in order have totals `[3, 2, 5]`, `grouped_slice 1 1` fetches rows
at positions `[3, 5)` and returns a mapping containing exactly the second
group with its two rows. -/
theorem C1_grouped_slice_row_range :
    (∀ (counts : List GroupCount) (offset limit : Nat),
        slice_offset counts offset =
          (if offset = 0 then 0
           else ∑ i ∈ Finset.range offset, (counts.getD i ⟨none, 0⟩).total) ∧
        slice_row_count counts offset limit =
          ∑ i ∈ Finset.Ico offset (offset + limit),
            (counts.getD i ⟨none, 0⟩).total) ∧
    MappingViewQuerySet.grouped_counts exView10 =
      [⟨some 3, 3⟩, ⟨some 2, 2⟩, ⟨some 1, 5⟩] ∧
    slice_offset (MappingViewQuerySet.grouped_counts exView10) 1 = 3 ∧
    slice_row_count (MappingViewQuerySet.grouped_counts exView10) 1 1 = 2 ∧
    pySlice (MappingViewQuerySet.order_by_desc exView10) 3 2 =
      [vrow 4 (some 2), vrow 5 (some 2)] ∧
    MappingViewQuerySet.grouped_slice exView10 1 1 =
      [(some 2, [vrow 4 (some 2), vrow 5 (some 2)])] := by
  refine ⟨?_, by decide, by decide, by decide, by decide, by decide⟩
  intro counts offset limit
  constructor
  · unfold slice_offset
    by_cases h : offset = 0
    · simp [h]
    · rw [if_neg h, if_neg h, sum_map_take_eq_range]
  · unfold slice_row_count
    exact sum_map_slice_eq_ico counts offset limit

/-- C2 (amended): for the denormalized queryset the total number of rows in
the returned mapping equals the summed `total` entries of the counts at
indices `[group_offset, group_offset + group_limit)`; for the normalized
queryset this total is only bounded above by that sum, because the history
join duplicates rows and the loop's deduplication and staleness filters
drop some of the fetched rows. -/
theorem C2_slice_total_rows :
    (∀ (qs : List ViewRec) (offset limit : Nat),
        sumLens (MappingViewQuerySet.grouped_slice qs offset limit) =
          slice_row_count (MappingViewQuerySet.grouped_counts qs) offset limit) ∧
    (∀ (allRMH : List RMHRec) (qs : List MappingRec) (offset limit : Nat)
        (out : List (Option Int × List MappingRec)),
        MappingQuerySet.grouped_slice allRMH qs offset limit = .ok out →
        sumLens out ≤
          slice_row_count (MappingQuerySet.grouped_counts qs) offset limit) :=
  ⟨view_slice_sumLens, norm_slice_sumLens_le⟩

/-- C2 counterexample: a normalized rowset with one mapping whose two
history entries share the group key: the counts entry says total 2, but
`grouped_slice` returns a single deduplicated row, so the sum of returned
row counts is 1, not 2. -/
theorem C2_normalized_sum_counterexample :
    MappingQuerySet.grouped_slice [exRMH] [exMapDup] 0 1 =
      .ok [(some 1, [exMapDup])] ∧
    sumLens [((some 1 : Option Int), [exMapDup])] = 1 ∧
    slice_row_count (MappingQuerySet.grouped_counts [exMapDup]) 0 1 = 2 :=
  ⟨rfl, rfl, by decide⟩

theorem C2_slice_total_rows_witness :
    sumLens [((some 1 : Option Int), [exMapDup])] ≤
      slice_row_count (MappingQuerySet.grouped_counts [exMapDup]) 0 1 :=
  C2_slice_total_rows.2 [exRMH] [exMapDup] 0 1 [(some 1, [exMapDup])] rfl

/-- C3 (amended): the normalized-form `grouped_slice` deduplicates by
`mapping_id` within each group, so no returned group list contains two
rows with the same `mapping_id`; the denormalized-form `grouped_slice`
performs no deduplication and returns duplicate rows. -/
theorem C3_grouped_slice_dedup :
    ∀ (allRMH : List RMHRec) (qs : List MappingRec) (offset limit : Nat)
      (out : List (Option Int × List MappingRec)),
      MappingQuerySet.grouped_slice allRMH qs offset limit = .ok out →
      ∀ p ∈ out, (p.2.map (·.mapping_id)).Nodup := by
  intro allRMH qs offset limit out h
  simp only [MappingQuerySet.grouped_slice] at h
  refine sliceLoop_nodup allRMH _ [] [] out h ?_ ?_
  · intro p hp
    simp at hp
  · intro p hp
    simp at hp

/-- C3 counterexample: two denormalized rows sharing both group key and
`mapping_id` are both returned by the denormalized `grouped_slice`, so the
claimed deduplication does not hold for the denormalized form. -/
theorem C3_view_dup_counterexample :
    MappingViewQuerySet.grouped_slice [exViewDupA, exViewDupB] 0 1 =
      [(some 1, [exViewDupA, exViewDupB])] ∧
    exViewDupA.mapping_id = exViewDupB.mapping_id ∧
    exViewDupA.grouping_id = exViewDupB.grouping_id ∧
    ¬ (([exViewDupA, exViewDupB].map (·.mapping_id)).Nodup) :=
  ⟨by decide, rfl, rfl, by decide⟩

theorem C3_grouped_slice_dedup_witness :
    (([exMapDup].map (·.mapping_id)).Nodup) :=
  C3_grouped_slice_dedup [exRMH] [exMapDup] 0 1 [(some 1, [exMapDup])] rfl
    (some 1, [exMapDup]) (List.mem_singleton.mpr rfl)

/-- C4 (amended): in the denormalized form the counts sequence has a
null-key entry whose total equals the number of rows with a null group
key, and that group is counted and paged like any other; in the normalized
form the null-key entry is present but its total is 0, because the SQL
`COUNT` over the nullable `grouping_id` column skips NULL values. -/
theorem C4_null_group_counts :
    (∀ qs : List ViewRec,
        0 < qs.countP (fun r => decide (r.grouping_id = none)) →
        (⟨none, qs.countP (fun r => decide (r.grouping_id = none))⟩ : GroupCount) ∈
          MappingViewQuerySet.grouped_counts qs) ∧
    (∀ (qs : List MappingRec) (e : GroupCount),
        e ∈ MappingQuerySet.grouped_counts qs → e.grouping_id = none →
        e.total = 0) ∧
    MappingViewQuerySet.grouped_counts exViewNulls =
      [⟨none, 2⟩, ⟨some 5, 1⟩] ∧
    MappingViewQuerySet.grouped_count exViewNulls = 2 ∧
    MappingViewQuerySet.grouped_slice exViewNulls 0 1 =
      [(none, [vrow 1 none, vrow 2 none])] ∧
    MappingViewQuerySet.grouped_slice exViewNulls 1 1 =
      [(some 5, [vrow 3 (some 5)])] :=
  ⟨view_counts_null_mem, norm_counts_null_total, by decide, by decide,
   by decide, by decide⟩

/-- C4 counterexample: a normalized rowset with one null-group-key row: the
counts sequence's null entry carries total 0, not the claimed 1. -/
theorem C4_normalized_null_total_counterexample :
    MappingQuerySet.grouped_counts [exMapNullGid] = [⟨none, 0⟩] ∧
    (MappingQuerySet.joinRows [exMapNullGid]).countP
      (fun p => decide (p.2 = none)) = 1 ∧
    (0 : Nat) ≠ 1 :=
  ⟨by decide, by decide, by decide⟩

theorem C4_null_group_counts_witness :
    (⟨none, exViewNulls.countP (fun r => decide (r.grouping_id = none))⟩ : GroupCount) ∈
      MappingViewQuerySet.grouped_counts exViewNulls :=
  C4_null_group_counts.1 exViewNulls (by decide)

/-- C5: in the normalized form, a fetched row whose most-recently-mapped
history entry references a release snapshot that is not the species'
current latest snapshot never appears in any group's list, and on a
well-formed rowset (non-empty history chains whose snapshots are in the
global snapshot table) the slice completes without raising. -/
theorem C5_stale_rows_excluded :
    ∀ (allRMH : List RMHRec) (qs : List MappingRec) (offset limit : Nat),
      ((∀ m ∈ qs, m.mapping_history ≠ []) →
        (∀ m ∈ qs, ∀ hh ∈ m.mapping_history,
          hh.release_mapping_history ∈ allRMH) →
        ∃ out, MappingQuerySet.grouped_slice allRMH qs offset limit = .ok out) ∧
      (∀ out, MappingQuerySet.grouped_slice allRMH qs offset limit = .ok out →
        ∀ m, eligible allRMH m = false → ∀ p ∈ out, m ∉ p.2) := by
  intro allRMH qs offset limit
  constructor
  · intro h1 h2
    simp only [MappingQuerySet.grouped_slice]
    refine sliceLoop_ok allRMH _ [] [] ?_ ?_
    · intro m hm
      exact h1 m (mem_sub_qs hm)
    · intro m hm
      exact h2 m (mem_sub_qs hm)
  · intro out h m hel p hp hmem
    simp only [MappingQuerySet.grouped_slice] at h
    have helig := sliceLoop_eligible allRMH _ [] [] out h
      (fun p hp => by simp at hp) p hp m hmem
    rw [hel] at helig
    cases helig

theorem C5_stale_rows_excluded_witness :
    (∃ out, MappingQuerySet.grouped_slice [exRMHold, exRMH]
      [exMapCurrent, exMapStale] 0 1 = .ok out) ∧
    (∀ p ∈ [((some 1 : Option Int), [exMapCurrent])], exMapStale ∉ p.2) :=
  ⟨(C5_stale_rows_excluded [exRMHold, exRMH] [exMapCurrent, exMapStale] 0 1).1
      (by decide) (by decide),
   (C5_stale_rows_excluded [exRMHold, exRMH] [exMapCurrent, exMapStale] 0 1).2
      [(some 1, [exMapCurrent])] rfl exMapStale (by decide)⟩

/-- C6: the group counts are memoized per query-object instance: once the
`_counts` cache is set, `grouped_counts` returns exactly the cached
sequence with an unchanged state, and repeated `grouped_count` /
`grouped_slice` calls on the same instance return identical results, for
both queryset classes. -/
theorem C6_grouped_counts_memoized :
    (∀ (rows : List MappingRec) (c : List GroupCount),
        MappingQS.grouped_counts_call ⟨rows, some c⟩ = (c, ⟨rows, some c⟩)) ∧
    (∀ s : MappingQS,
        (MappingQS.grouped_counts_call s).2._counts =
          some (MappingQS.grouped_counts_call s).1) ∧
    (∀ s : MappingQS,
        MappingQS.grouped_counts_call (MappingQS.grouped_counts_call s).2 =
          ((MappingQS.grouped_counts_call s).1,
            (MappingQS.grouped_counts_call s).2)) ∧
    (∀ s : MappingQS,
        MappingQS.grouped_count_call (MappingQS.grouped_count_call s).2 =
          ((MappingQS.grouped_count_call s).1,
            (MappingQS.grouped_count_call s).2)) ∧
    (∀ (allRMH : List RMHRec) (s : MappingQS) (offset limit : Nat),
        MappingQS.grouped_slice_call allRMH
            (MappingQS.grouped_slice_call allRMH s offset limit).2 offset limit =
          ((MappingQS.grouped_slice_call allRMH s offset limit).1,
            (MappingQS.grouped_slice_call allRMH s offset limit).2)) ∧
    (∀ (rows : List ViewRec) (c : List GroupCount),
        MappingViewQS.grouped_counts_call ⟨rows, some c⟩ = (c, ⟨rows, some c⟩)) ∧
    (∀ s : MappingViewQS,
        (MappingViewQS.grouped_counts_call s).2._counts =
          some (MappingViewQS.grouped_counts_call s).1) ∧
    (∀ s : MappingViewQS,
        MappingViewQS.grouped_counts_call (MappingViewQS.grouped_counts_call s).2 =
          ((MappingViewQS.grouped_counts_call s).1,
            (MappingViewQS.grouped_counts_call s).2)) ∧
    (∀ s : MappingViewQS,
        MappingViewQS.grouped_count_call (MappingViewQS.grouped_count_call s).2 =
          ((MappingViewQS.grouped_count_call s).1,
            (MappingViewQS.grouped_count_call s).2)) ∧
    (∀ (s : MappingViewQS) (offset limit : Nat),
        MappingViewQS.grouped_slice_call
            (MappingViewQS.grouped_slice_call s offset limit).2 offset limit =
          ((MappingViewQS.grouped_slice_call s offset limit).1,
            (MappingViewQS.grouped_slice_call s offset limit).2)) := by
  refine ⟨fun rows c => rfl, ?_, ?_, ?_, ?_, fun rows c => rfl, ?_, ?_, ?_, ?_⟩
  · intro s
    obtain ⟨rows, cache⟩ := s
    cases cache <;> rfl
  · intro s
    obtain ⟨rows, cache⟩ := s
    cases cache <;> rfl
  · intro s
    obtain ⟨rows, cache⟩ := s
    cases cache <;> rfl
  · intro allRMH s offset limit
    obtain ⟨rows, cache⟩ := s
    cases cache <;> rfl
  · intro s
    obtain ⟨rows, cache⟩ := s
    cases cache <;> rfl
  · intro s
    obtain ⟨rows, cache⟩ := s
    cases cache <;> rfl
  · intro s
    obtain ⟨rows, cache⟩ := s
    cases cache <;> rfl
  · intro s offset limit
    obtain ⟨rows, cache⟩ := s
    cases cache <;> rfl

/-- C7 (amended): `divergences()` returns the three bucket counts with
boundaries exactly 0, (0, 5], (5, inf); rows with a null difference fall in
no bucket, and the sum of the three counts equals the number of rows whose
difference is non-null and non-negative -- which is the number of non-null
rows whenever all differences are non-negative; the spec's example
`[0, 0, 3, 7, None]` yields `[2, 1, 1]`. -/
theorem C7_divergences_buckets :
    (∀ qs : List ViewRec,
        (MappingViewQuerySet.divergences qs).sum =
          qs.countP (fun m => diffCounted m.alignment_difference)) ∧
    (∀ qs : List MappingRec,
        (MappingQuerySet.divergences qs).sum =
          qs.countP (fun m => diffCounted m.alignment_difference)) ∧
    (∀ qs : List ViewRec,
        (∀ m ∈ qs, ∀ d : Int, m.alignment_difference = some d → 0 ≤ d) →
        (MappingViewQuerySet.divergences qs).sum =
          qs.countP (fun m => m.alignment_difference.isSome)) ∧
    (∀ qs : List MappingRec,
        (∀ m ∈ qs, ∀ d : Int, m.alignment_difference = some d → 0 ≤ d) →
        (MappingQuerySet.divergences qs).sum =
          qs.countP (fun m => m.alignment_difference.isSome)) ∧
    MappingViewQuerySet.divergences exDivRows = [2, 1, 1] ∧
    exDivRows.countP (fun m => m.alignment_difference.isSome) = 4 := by
  refine ⟨divergences_sum_view, divergences_sum_norm, ?_, ?_, by decide, by decide⟩
  · intro qs h
    rw [divergences_sum_view]
    refine countP_ext _ _ _ ?_
    intro m hm
    cases hd : m.alignment_difference with
    | none => rfl
    | some d =>
        simp only [diffCounted, Option.isSome_some]
        simp [h m hm d hd]
  · intro qs h
    rw [divergences_sum_norm]
    refine countP_ext _ _ _ ?_
    intro m hm
    cases hd : m.alignment_difference with
    | none => rfl
    | some d =>
        simp only [diffCounted, Option.isSome_some]
        simp [h m hm d hd]

/-- C7 counterexample: a row with a negative (non-null) difference falls in
none of the three buckets, so the claimed equality with the count of
non-null rows fails. -/
theorem C7_negative_difference_counterexample :
    MappingViewQuerySet.divergences [dvrow 1 (some (-1))] = [0, 0, 0] ∧
    [dvrow 1 (some (-1))].countP (fun m => m.alignment_difference.isSome) = 1 ∧
    ([0, 0, 0] : List Nat).sum ≠ 1 :=
  ⟨by decide, by decide, by decide⟩

theorem C7_divergences_buckets_witness :
    (MappingViewQuerySet.divergences exDivRows).sum =
      exDivRows.countP (fun m => m.alignment_difference.isSome) :=
  C7_divergences_buckets.2.2.1 exDivRows (by decide)

/-- C8 (amended): `grouped_slice` returns an empty mapping (and never
raises) when `group_offset` is at least the number of groups or when
`group_limit` is 0; on an empty rowset `grouped_count` is 0,
`grouped_slice` is empty, and the set-valued facet methods return empty
collections -- while `divergences` returns `[0, 0, 0]` and `has_patches`
returns `false`; no operation raises. -/
theorem C8_edge_cases :
    (∀ (qs : List ViewRec) (offset limit : Nat),
        MappingViewQuerySet.grouped_count qs ≤ offset →
        MappingViewQuerySet.grouped_slice qs offset limit = []) ∧
    (∀ (qs : List ViewRec) (offset : Nat),
        MappingViewQuerySet.grouped_slice qs offset 0 = []) ∧
    (∀ (allRMH : List RMHRec) (qs : List MappingRec) (offset limit : Nat),
        MappingQuerySet.grouped_count qs ≤ offset →
        MappingQuerySet.grouped_slice allRMH qs offset limit = .ok []) ∧
    (∀ (allRMH : List RMHRec) (qs : List MappingRec) (offset : Nat),
        MappingQuerySet.grouped_slice allRMH qs offset 0 = .ok []) ∧
    MappingViewQuerySet.grouped_count [] = 0 ∧
    MappingQuerySet.grouped_count [] = 0 ∧
    (∀ offset limit : Nat,
        MappingViewQuerySet.grouped_slice [] offset limit = []) ∧
    (∀ (allRMH : List RMHRec) (offset limit : Nat),
        MappingQuerySet.grouped_slice allRMH [] offset limit = .ok []) ∧
    MappingViewQuerySet.statuses [] = [] ∧
    MappingQuerySet.statuses [] = [] ∧
    MappingViewQuerySet.species [] [] = some [] ∧
    MappingQuerySet.species [] = [] ∧
    MappingViewQuerySet.chromosomes [] = [] ∧
    MappingQuerySet.chromosomes [] = some [] ∧
    MappingViewQuerySet.types [] = [] ∧
    MappingViewQuerySet.divergences [] = [0, 0, 0] ∧
    MappingQuerySet.divergences [] = [0, 0, 0] ∧
    MappingViewQuerySet.has_patches [] = false := by
  refine ⟨?_, ?_, ?_, ?_, rfl, rfl, ?_, ?_, rfl, rfl, rfl, rfl, rfl, rfl, rfl,
    rfl, rfl, rfl⟩
  · intro qs offset limit h
    exact view_slice_of_row_count_zero qs offset limit
      (slice_row_count_of_le _ _ _ h)
  · intro qs offset
    exact view_slice_of_row_count_zero qs offset 0 (slice_row_count_zero _ _)
  · intro allRMH qs offset limit h
    exact norm_slice_of_row_count_zero allRMH qs offset limit
      (slice_row_count_of_le _ _ _ h)
  · intro allRMH qs offset
    exact norm_slice_of_row_count_zero allRMH qs offset 0
      (slice_row_count_zero _ _)
  · intro offset limit
    exact view_slice_of_row_count_zero [] offset limit
      (slice_row_count_of_le _ _ _ (Nat.zero_le _))
  · intro allRMH offset limit
    exact norm_slice_of_row_count_zero allRMH [] offset limit
      (slice_row_count_of_le _ _ _ (Nat.zero_le _))

/-- C8 counterexample: on the empty rowset `divergences` returns
`[0, 0, 0]`, a three-element list, not an empty collection as the claim
states for all facet methods. -/
theorem C8_divergences_not_empty_counterexample :
    MappingViewQuerySet.divergences [] = [0, 0, 0] ∧
    ([0, 0, 0] : List Nat) ≠ [] :=
  ⟨rfl, by decide⟩

theorem C8_edge_cases_witness :
    MappingViewQuerySet.grouped_slice exView10 5 3 = [] :=
  C8_edge_cases.1 exView10 5 3 (by decide)

/-- C9 (amended): the denormalized `chromosomes()` filters out null and
empty labels and always returns a sorted list; the normalized
`chromosomes()` appends every distinct value including nulls and its final
sort returns normally exactly when the distinct values contain no null or
consist of a single value (Python sorts a one-element list without
comparing, so a lone null is returned as-is). -/
theorem C9_chromosomes_null_handling :
    (∀ qs : List ViewRec,
        List.Sorted (· ≤ ·) (MappingViewQuerySet.chromosomes qs) ∧
        ∀ s ∈ MappingViewQuerySet.chromosomes qs, s ≠ "") ∧
    (∀ qs : List MappingRec,
        (MappingQuerySet.chromosomes qs).isSome = true ↔
          ((qs.map (·.chromosome)).dedup.length ≤ 1 ∨
            (none : Option String) ∉ (qs.map (·.chromosome)).dedup)) :=
  ⟨fun qs => ⟨view_chromosomes_sorted qs, view_chromosomes_ne_empty qs⟩,
   norm_chromosomes_isSome_iff⟩

/-- C9 counterexample: a normalized rowset whose only distinct chromosome
value is null: the call returns normally (with `[None]`) even though a
distinct chromosome value is null, contradicting the claimed "only
when". -/
theorem C9_single_null_chromosome_counterexample :
    MappingQuerySet.chromosomes [exMapCurrent] = some [none] ∧
    (none : Option String) ∈ ([exMapCurrent].map (·.chromosome)).dedup :=
  ⟨rfl, by decide⟩

theorem C9_chromosomes_null_handling_witness :
    ("1" : String) ≠ "" :=
  (C9_chromosomes_null_handling.1 [exViewChr]).2 "1"
    (List.mem_singleton.mpr rfl)

/-- C10: the vocabulary classmethods disagree on unknown identifiers:
`Mapping.entry_type` / `Mapping.status_type` raise `KeyError` while
`MappingView.entry_description` / `MappingView.status_description` return
`None`; for identities present in the vocabulary all four return the
stored description; with a non-empty cache the lookups read the cache, not
the table. -/
theorem C10_vocabulary_lookup :
    (∀ (tbl : List CvRec) (identity : Nat),
        pyDictGet (buildVocab tbl) identity = none →
        (Mapping.entry_type [] tbl identity).1 = .error () ∧
        (Mapping.status_type [] tbl identity).1 = .error () ∧
        (MappingView.entry_description [] tbl identity).1 = none ∧
        (MappingView.status_description [] tbl identity).1 = none) ∧
    (∀ (tbl : List CvRec) (identity : Nat) (d : String),
        pyDictGet (buildVocab tbl) identity = some d →
        (Mapping.entry_type [] tbl identity).1 = .ok d ∧
        (Mapping.status_type [] tbl identity).1 = .ok d ∧
        (MappingView.entry_description [] tbl identity).1 = some d ∧
        (MappingView.status_description [] tbl identity).1 = some d) ∧
    (∀ (cache : List (Nat × String)) (tbl tbl' : List CvRec) (identity : Nat),
        cache ≠ [] →
        Mapping.entry_type cache tbl identity =
          Mapping.entry_type cache tbl' identity ∧
        MappingView.entry_description cache tbl identity =
          MappingView.entry_description cache tbl' identity) := by
  refine ⟨?_, ?_, ?_⟩
  · intro tbl identity h
    simp [Mapping.entry_type, Mapping.status_type,
      MappingView.entry_description, MappingView.status_description, h]
  · intro tbl identity d h
    simp [Mapping.entry_type, Mapping.status_type,
      MappingView.entry_description, MappingView.status_description, h]
  · intro cache tbl tbl' identity h
    have hne : cache.isEmpty = false := by
      simp [List.isEmpty_iff, h]
    simp [Mapping.entry_type, MappingView.entry_description, hne]

theorem C10_vocabulary_lookup_witness :
    (Mapping.entry_type [] exVocab 2).1 = .error () ∧
    (MappingView.entry_description [] exVocab 2).1 = none ∧
    (Mapping.entry_type [] exVocab 1).1 = .ok "sample description" ∧
    (MappingView.entry_description [] exVocab 1).1 = some "sample description" :=
  ⟨(C10_vocabulary_lookup.1 exVocab 2 rfl).1,
   (C10_vocabulary_lookup.1 exVocab 2 rfl).2.2.1,
   (C10_vocabulary_lookup.2.1 exVocab 1 "sample description" rfl).1,
   (C10_vocabulary_lookup.2.1 exVocab 1 "sample description" rfl).2.2.1⟩

end GiftsRest
